import Mathlib

/-!
# Verification of the world-engine system scheduler and transaction queue

Shallow embedding of the repository's system scheduler (`cardinal/system.go`)
and, where the implementation is absent from the sources (only its tests are
present), of the transaction queue and transaction-type registry as the
specification describes them.

Go errors produced via `eris` are modelled as a chain of wrap messages around
a base error; `nil` errors are `Option.none` at the call sites that can fail.
-/

set_option autoImplicit false

namespace WorldEngine

/-- A Go `error` built by `eris`: a base message possibly wrapped by further
messages (`eris.Wrapf(err, msg)` becomes `GoError.wrap err msg`). -/
inductive GoError where
  | base (msg : String)
  | wrap (inner : GoError) (msg : String)
deriving DecidableEq

/-- The list of messages attached to an error, outermost first. -/
def GoError.messages : GoError → List String
  | .base m => [m]
  | .wrap e m => m :: e.messages

/-- The innermost (root cause) error of a wrap chain. -/
def GoError.root : GoError → GoError
  | .base m => .base m
  | .wrap e _ => e.root

/-- The `engine.Context` handed to systems; of its interface the scheduler
code under `src/` consults only the current tick number (`CurrentTick()`).
The logger interaction (`SetLogger`) has no observable effect on the
scheduler state and is not modelled. -/
structure EngineContext where
  CurrentTick : Nat

/-- Type `System` from `cardinal/system.go`: a user-defined function executed at
every tick, returning `nil` (`none`) on success or an error. -/
def System : Type := EngineContext → Option GoError

/-- Struct `systemType` from `cardinal/system.go`: an internal entry used to track
registered systems. -/
structure systemType where
  Name : String
  Fn : System

/-- In Go a system's name is derived by reflection from the function's code
identity (`runtime.FuncForPC(...).Name()`); reflection has no shallow
embedding, so a registration argument carries the name that derivation
would produce alongside the function itself. -/
structure SystemFunc where
  Name : String
  Fn : System

/-- Struct `systemManager` from `cardinal/system.go`. -/
structure systemManager where
  registeredSystems : List systemType
  registeredInitSystems : List systemType
  currentSystem : String

/-- Constant `noActiveSystemName` from `cardinal/system.go`. -/
def noActiveSystemName : String := ""

/-- Constructor `newSystemManager` from `cardinal/system.go`. -/
def newSystemManager : systemManager :=
  { registeredSystems := []
    registeredInitSystems := []
    currentSystem := noActiveSystemName }

/-- The loop body of `registerSystems`: walks `systemFuncs` accumulating
`systemToRegister`, returning the first duplicate-name error if any
(either within the batch or against the already-registered systems). -/
def registerLoop (m : systemManager) (systemToRegister : List systemType) :
    List SystemFunc → Except GoError (List systemType)
  | [] => .ok systemToRegister
  | f :: rest =>
    let systemName := f.Name
    if systemToRegister.any (fun s => s.Name = systemName) then
      .error (.base ("duplicate system \"" ++ systemName ++ "\" in slice"))
    else if (m.registeredSystems ++ m.registeredInitSystems).any
        (fun s => s.Name = systemName) then
      .error (.base ("System \"" ++ systemName ++ "\" is already registered"))
    else
      registerLoop m (systemToRegister ++ [⟨systemName, f.Fn⟩]) rest

/-- Method `registerSystems` from `cardinal/system.go`: all-or-nothing registration.
On an error the manager is returned unchanged (the Go method returns early
before mutating either list). -/
def registerSystems (m : systemManager) (isInit : Bool)
    (systemFuncs : List SystemFunc) : systemManager × Option GoError :=
  match registerLoop m [] systemFuncs with
  | .error e => (m, some e)
  | .ok systemToRegister =>
    if isInit then
      ({ m with registeredInitSystems := m.registeredInitSystems ++ systemToRegister }, none)
    else
      ({ m with registeredSystems := m.registeredSystems ++ systemToRegister }, none)

/-- The observable trace of one `runSystems` call.
`during` records, for each invoked system, the pair (its name, the value of
`m.currentSystem` while it runs); `between` records the value of
`m.currentSystem` at the instant after each successful system returns and
before the next assignment to `m.currentSystem`; `executed` lists the names
of the systems actually invoked, in order; `final` is `m.currentSystem`
after `runSystems` returns; `result` is the returned error. -/
structure RunTrace where
  during : List (String × String)
  between : List String
  executed : List String
  final : String
  result : Option GoError

/-- The loop of `runSystems` (`cardinal/system.go` lines 118-143), with the
`currentSystem` field threaded explicitly.  Per iteration the Go code sets
`m.currentSystem = sys.Name`, invokes `sys.Fn`, and on error sets
`m.currentSystem = ""` and returns the error wrapped with the system's
name; after the loop it sets `m.currentSystem = noActiveSystemName`.
Nothing resets `currentSystem` between two consecutive iterations. -/
def runSystemsLoop (wCtx : EngineContext) : List systemType → RunTrace
  | [] =>
    { during := [], between := [], executed := []
      final := noActiveSystemName, result := none }
  | sys :: rest =>
    match sys.Fn wCtx with
    | some err =>
      { during := [(sys.Name, sys.Name)], between := [], executed := [sys.Name]
        final := ""
        result := some (.wrap err ("System " ++ sys.Name ++ " generated an error")) }
    | none =>
      let t := runSystemsLoop wCtx rest
      { during := (sys.Name, sys.Name) :: t.during
        between := sys.Name :: t.between
        executed := sys.Name :: t.executed
        final := t.final
        result := t.result }

/-- The system list chosen by `runSystems` (`cardinal/system.go` lines
110-115): tick 0 runs `slices.Concat(m.registeredInitSystems,
m.registeredSystems)`, every other tick runs `m.registeredSystems`. -/
def systemsToRun (m : systemManager) (wCtx : EngineContext) : List systemType :=
  if wCtx.CurrentTick = 0 then
    m.registeredInitSystems ++ m.registeredSystems
  else
    m.registeredSystems

/-- Method `runSystems` from `cardinal/system.go`: runs the selected systems in
order, returning the updated manager and the observable trace (whose
`result` field is the Go return value). -/
def runSystems (m : systemManager) (wCtx : EngineContext) : systemManager × RunTrace :=
  let t := runSystemsLoop wCtx (systemsToRun m wCtx)
  ({ m with currentSystem := t.final }, t)

/-- Method `GetRegisteredSystems` from `cardinal/system.go`. -/
def GetRegisteredSystems (m : systemManager) : List String :=
  (m.registeredInitSystems ++ m.registeredSystems).map systemType.Name

/-- Method `GetCurrentSystem` from `cardinal/system.go`. -/
def GetCurrentSystem (m : systemManager) : String :=
  m.currentSystem

/-- Modelled from the spec: the `Tick` entry point (`World.Tick`, whose
implementation is not among the sources; §4.3 step 5 and §7 describe it)
drives one `runSystems` pass and surfaces a system failure to its caller
wrapped with the tick number. -/
def Tick (m : systemManager) (wCtx : EngineContext) :
    systemManager × RunTrace × Option GoError :=
  let (m2, t) := runSystems m wCtx
  match t.result with
  | some e => (m2, t, some (.wrap e ("tick " ++ toString wCtx.CurrentTick)))
  | none => (m2, t, none)

/-- The `Signature` threaded with each transaction (§3): submitter tag + nonce,
carried through but not authenticated. -/
structure Signature where
  PersonaTag : String
  Nonce : Nat
deriving DecidableEq

/-- A queued transaction instance (§3): a tuple of TypeID, payload and
signature. Payloads are type-erased in the queue; they are modelled by an
opaque-to-the-queue natural-number token. -/
structure TxEntry where
  TypeID : Nat
  Payload : Nat
  Sig : Signature
deriving DecidableEq

/-- Modelled from the spec (§4.2): the double-buffered transaction queue,
whose implementation is not among the sources (only its tests are). The
`active` buffer accumulates incoming submissions; the `processing` buffer
is the frozen batch of the tick currently executing. -/
structure TransactionQueue where
  active : List TxEntry
  processing : List TxEntry

/-- Modelled from the spec: a freshly constructed world has an empty queue. -/
def emptyTxQueue : TransactionQueue :=
  { active := [], processing := [] }

/-- Modelled from the spec (§4.2): `AddTransaction` appends to the active
buffer; callable at any time, including while a tick is executing. -/
def AddTransaction (q : TransactionQueue) (e : TxEntry) : TransactionQueue :=
  { q with active := q.active ++ [e] }

/-- Submitting a whole list of transactions in order. -/
def addTransactions (q : TransactionQueue) (es : List TxEntry) : TransactionQueue :=
  es.foldl AddTransaction q

/-- Modelled from the spec (§4.2): `SwapAndGetProcessing`, called exactly once
per tick at its start: active becomes processing and a brand-new empty
active buffer is installed; the new processing batch is returned. -/
def SwapAndGetProcessing (q : TransactionQueue) : TransactionQueue × List TxEntry :=
  ({ active := [], processing := q.active }, q.active)

/-- Modelled from the spec (§4.2): `TypedView` filters the frozen batch to
the entries of one TypeID, preserving submission order. -/
def TypedView (batch : List TxEntry) (typeID : Nat) : List TxEntry :=
  batch.filter (fun e => e.TypeID == typeID)

/-- Registration-time errors of the transaction-type registry (§7). -/
inductive RegistrationError where
  | DuplicateRegistration (name : String)
  | RegistrationClosed
deriving DecidableEq

/-- A transaction-type descriptor as the registry sees it (§3): a name plus
a payload shape (the Go struct type backing the payload, abstracted to a
shape token — two descriptors with different shapes may share a name). -/
structure ITransaction where
  Name : String
  Shape : List Nat
deriving DecidableEq

/-- Modelled from the spec: the part of the ECS world that registers
transaction types (`RegisterTransactions`, not among the sources).
`stateLoaded` is whether `LoadGameState` has already run. -/
structure ECSWorld where
  registeredTransactions : List ITransaction
  stateLoaded : Bool

/-- The walk over one registration call's descriptor list: fails with
`DuplicateRegistration` on a name already registered or duplicated within
the call (an identical type object registered twice has, in particular, an
identical name). -/
def registerTxLoop (w : ECSWorld) (acc : List ITransaction) :
    List ITransaction → Except RegistrationError (List ITransaction)
  | [] => .ok acc
  | tx :: rest =>
    if (acc ++ w.registeredTransactions).any (fun t => t.Name = tx.Name) then
      .error (.DuplicateRegistration tx.Name)
    else
      registerTxLoop w (acc ++ [tx]) rest

/-- Modelled from the spec (§4.2, §7): `RegisterTransactions` assigns
registrations in call order, is permitted only before ticking begins,
fails with `DuplicateRegistration` on any name collision, and is
all-or-nothing — on an error the world is unchanged. -/
def RegisterTransactions (w : ECSWorld) (txs : List ITransaction) :
    ECSWorld × Option RegistrationError :=
  if w.stateLoaded then
    (w, some .RegistrationClosed)
  else
    match registerTxLoop w [] txs with
    | .error e => (w, some e)
    | .ok toAdd =>
      ({ w with registeredTransactions := w.registeredTransactions ++ toAdd }, none)

/-- A field type of an external (EVM/ABI-style) binary-encoding schema; the
shapes the test suite exercises are unsigned 64-bit integers and strings
(Go strings are byte sequences). -/
inductive FieldType where
  | uint64
  | str
deriving DecidableEq

/-- A decoded field value: a 64-bit natural or a byte string. -/
inductive FieldValue where
  | u64 (n : Nat)
  | str (bytes : List Nat)
deriving DecidableEq

/-- Modelled from the spec (§6): an external-encoding schema is an ordered
tuple of field types (the ABI tuple descriptor `SetEVMType` receives). -/
def EVMType : Type := List FieldType

/-- Errors of the external decode boundary (§6, §7). -/
inductive EVMDecodeError where
  | SchemaNotConfigured
  | DecodeFailure
deriving DecidableEq

/-- Modelled from the spec: a transaction type carrier for the external
boundary — a name plus an optionally configured schema; `NewTransactionType`
leaves the schema unconfigured. -/
structure TransactionType where
  Name : String
  evmType : Option EVMType

/-- Constructor `NewTransactionType` — no schema configured yet. -/
def NewTransactionType (name : String) : TransactionType :=
  { Name := name, evmType := none }

/-- Modelled from the spec (§6): `SetEVMType` (`SetSchema`) configures the
transaction type's external binary-encoding descriptor. -/
def SetEVMType (t : TransactionType) (schema : EVMType) : TransactionType :=
  { t with evmType := some schema }

/-- Whether a payload value matches a schema field type (a `uint64` field
holds a value below `2^64`). -/
def fieldMatches : FieldType → FieldValue → Bool
  | .uint64, .u64 n => n < 2 ^ 64
  | .str, .str _ => true
  | _, _ => false

/-- Whether a payload (tuple of field values) is well-typed for a schema. -/
def wellTyped : EVMType → List FieldValue → Bool
  | [], [] => true
  | ft :: fts, v :: vs => fieldMatches ft v && wellTyped fts vs
  | _, _ => false

/-- Modelled from the spec: the external encoding of one field — a `uint64`
is one word, a string is length-prefixed. -/
def encodeField : FieldValue → List Nat
  | .u64 n => [n]
  | .str bs => bs.length :: bs

/-- Modelled from the spec: encoding a payload per the schema concatenates
the field encodings in order (the counterpart of `abi.Arguments.Pack`). -/
def encodePayload : List FieldValue → List Nat
  | [] => []
  | v :: vs => encodeField v ++ encodePayload vs

/-- Decoding one field from the byte stream, returning the value and the
remaining bytes, or `none` on malformed input. -/
def decodeField : FieldType → List Nat → Option (FieldValue × List Nat)
  | .uint64, n :: rest => some (.u64 n, rest)
  | .uint64, [] => none
  | .str, len :: rest =>
    if len ≤ rest.length then some (.str (rest.take len), rest.drop len) else none
  | .str, [] => none

/-- Decoding a whole payload per the schema; trailing bytes are malformed. -/
def decodePayload : EVMType → List Nat → Option (List FieldValue)
  | [], [] => some []
  | [], _ :: _ => none
  | ft :: fts, bz =>
    match decodeField ft bz with
    | none => none
    | some (v, rest) => (decodePayload fts rest).map (fun vs => v :: vs)

/-- Modelled from the spec (§6): `DecodeEVMBytes` (`DecodeExternalBytes`)
fails with `SchemaNotConfigured` if called before `SetEVMType`, otherwise
decodes per schema or fails with `DecodeFailure` on malformed input. -/
def DecodeEVMBytes (t : TransactionType) (bz : List Nat) :
    Except EVMDecodeError (List FieldValue) :=
  match t.evmType with
  | none => .error .SchemaNotConfigured
  | some schema =>
    match decodePayload schema bz with
    | none => .error .DecodeFailure
    | some vs => .ok vs

/-- The names of all previously registered systems, regular then init — the
order in which `registerSystems` consults them for collisions. -/
def registeredNames (m : systemManager) : List String :=
  (m.registeredSystems ++ m.registeredInitSystems).map systemType.Name

/-- Applying a sequence of registration calls (isInit flag with a batch of
functions) to a manager, keeping each call's resulting manager. -/
def registerAll (m : systemManager) : List (Bool × List SystemFunc) → systemManager
  | [] => m
  | c :: rest => registerAll (registerSystems m c.1 c.2).1 rest

/-- All the registration calls of the sequence succeed (return `nil`). -/
def registrationsSucceed (m : systemManager) : List (Bool × List SystemFunc) → Prop
  | [] => True
  | c :: rest =>
    (registerSystems m c.1 c.2).2 = none ∧
    registrationsSucceed (registerSystems m c.1 c.2).1 rest

/-- The names submitted by the init-registration calls of a sequence, in
call order. -/
def initNamesOfCalls : List (Bool × List SystemFunc) → List String
  | [] => []
  | c :: rest =>
    (if c.1 then c.2.map SystemFunc.Name else []) ++ initNamesOfCalls rest

/-- The names submitted by the regular-registration calls of a sequence, in
call order. -/
def regularNamesOfCalls : List (Bool × List SystemFunc) → List String
  | [] => []
  | c :: rest =>
    (if c.1 then [] else c.2.map SystemFunc.Name) ++ regularNamesOfCalls rest

/-- Manager used to instantiate the scheduler claims: one system succeeds,
the next fails, a third never gets to run. -/
def mgrWithFailure : systemManager :=
  { registeredSystems :=
      [⟨"okA", fun _ => none⟩,
       ⟨"failB", fun _ => some (.base "boom")⟩,
       ⟨"okC", fun _ => none⟩]
    registeredInitSystems := []
    currentSystem := "" }

/-- Manager used to instantiate the init/regular scheduling claims: one init
system and two regular systems, all succeeding. -/
def mgrInitRegular : systemManager :=
  { registeredSystems := [⟨"regA", fun _ => none⟩, ⟨"regB", fun _ => none⟩]
    registeredInitSystems := [⟨"initA", fun _ => none⟩]
    currentSystem := "" }

/-- Manager used to refute the between-systems clearing claim: two regular
systems that both succeed. -/
def mgrTwoSystems : systemManager :=
  { registeredSystems := [⟨"sysA", fun _ => none⟩, ⟨"sysB", fun _ => none⟩]
    registeredInitSystems := []
    currentSystem := "" }

/-- A registration-call sequence interleaving regular and init calls, used
to instantiate the registered-systems ordering claim. -/
def callsInterleaved : List (Bool × List SystemFunc) :=
  [(false, [⟨"regA", fun _ => none⟩]),
   (true, [⟨"initA", fun _ => none⟩]),
   (false, [⟨"regB", fun _ => none⟩])]

/-! ## Helper lemmas -/

theorem addTransactions_active (q : TransactionQueue) (es : List TxEntry) :
    (addTransactions q es).active = q.active ++ es := by
  induction es generalizing q with
  | nil => simp [addTransactions]
  | cons e rest ih =>
    show (addTransactions (AddTransaction q e) rest).active = _
    rw [ih]
    simp [AddTransaction]

theorem decodePayload_encodePayload (s : EVMType) (p : List FieldValue)
    (h : wellTyped s p = true) :
    decodePayload s (encodePayload p) = some p := by
  induction s generalizing p with
  | nil =>
    cases p with
    | nil => rfl
    | cons v vs => simp [wellTyped] at h
  | cons ft fts ih =>
    cases p with
    | nil => simp [wellTyped] at h
    | cons v vs =>
      rw [wellTyped, Bool.and_eq_true] at h
      have hrec := ih vs h.2
      cases ft with
      | uint64 =>
        cases v with
        | u64 n => simp [encodePayload, encodeField, decodePayload, decodeField, hrec]
        | str bs => simp [fieldMatches] at h
      | str =>
        cases v with
        | u64 n => simp [fieldMatches] at h
        | str bs =>
          rw [encodePayload, encodeField]
          show decodePayload (FieldType.str :: fts)
            (bs.length :: (bs ++ encodePayload vs)) = _
          rw [decodePayload, decodeField]
          have hle : bs.length ≤ (bs ++ encodePayload vs).length := by
            simp
          rw [if_pos hle, List.take_left, List.drop_left]
          simp [hrec]

theorem runSystemsLoop_success (wCtx : EngineContext) (l : List systemType)
    (h : ∀ s ∈ l, s.Fn wCtx = none) :
    runSystemsLoop wCtx l =
      { during := l.map (fun s => (s.Name, s.Name))
        between := l.map systemType.Name
        executed := l.map systemType.Name
        final := noActiveSystemName
        result := none } := by
  induction l with
  | nil => rfl
  | cons sys rest ih =>
    have hs : sys.Fn wCtx = none := h sys (List.mem_cons_self _ _)
    have hr := ih (fun s hs' => h s (List.mem_cons_of_mem _ hs'))
    rw [runSystemsLoop, hs, hr]
    simp

theorem runSystemsLoop_failure (wCtx : EngineContext) (pre : List systemType)
    (sys : systemType) (post : List systemType) (e : GoError)
    (hpre : ∀ s ∈ pre, s.Fn wCtx = none) (hf : sys.Fn wCtx = some e) :
    runSystemsLoop wCtx (pre ++ sys :: post) =
      { during := pre.map (fun s => (s.Name, s.Name)) ++ [(sys.Name, sys.Name)]
        between := pre.map systemType.Name
        executed := pre.map systemType.Name ++ [sys.Name]
        final := ""
        result := some (.wrap e ("System " ++ sys.Name ++ " generated an error")) } := by
  induction pre with
  | nil =>
    rw [List.nil_append, runSystemsLoop, hf]
    rfl
  | cons p rest ih =>
    have hp : p.Fn wCtx = none := hpre p (List.mem_cons_self _ _)
    have hr := ih (fun s hs' => hpre s (List.mem_cons_of_mem _ hs'))
    rw [List.cons_append, runSystemsLoop, hp, hr]
    simp

theorem runSystemsLoop_cons_none (wCtx : EngineContext) (sys : systemType)
    (rest : List systemType) (hf : sys.Fn wCtx = none) :
    runSystemsLoop wCtx (sys :: rest) =
      { during := (sys.Name, sys.Name) :: (runSystemsLoop wCtx rest).during
        between := sys.Name :: (runSystemsLoop wCtx rest).between
        executed := sys.Name :: (runSystemsLoop wCtx rest).executed
        final := (runSystemsLoop wCtx rest).final
        result := (runSystemsLoop wCtx rest).result } := by
  rw [runSystemsLoop, hf]

theorem runSystemsLoop_during_pairs (wCtx : EngineContext) (l : List systemType) :
    ∀ p ∈ (runSystemsLoop wCtx l).during, p.2 = p.1 := by
  induction l with
  | nil => intro p hp; simp [runSystemsLoop] at hp
  | cons sys rest ih =>
    intro p hp
    cases hf : sys.Fn wCtx with
    | some e =>
      rw [runSystemsLoop, hf] at hp
      simp at hp
      rw [hp]
    | none =>
      rw [runSystemsLoop, hf] at hp
      simp only [List.mem_cons] at hp
      rcases hp with rfl | hp
      · rfl
      · exact ih p hp

theorem runSystemsLoop_final_empty (wCtx : EngineContext) (l : List systemType) :
    (runSystemsLoop wCtx l).final = "" := by
  induction l with
  | nil => rfl
  | cons sys rest ih =>
    cases hf : sys.Fn wCtx with
    | some e => rw [runSystemsLoop, hf]
    | none =>
      rw [runSystemsLoop, hf]
      exact ih

theorem runSystemsLoop_between_prefix (wCtx : EngineContext) (l : List systemType) :
    ∀ i : Nat, i < (runSystemsLoop wCtx l).between.length →
      (runSystemsLoop wCtx l).between[i]? = (runSystemsLoop wCtx l).executed[i]? := by
  induction l with
  | nil => intro i hi; simp [runSystemsLoop] at hi
  | cons sys rest ih =>
    intro i hi
    cases hf : sys.Fn wCtx with
    | some e =>
      rw [runSystemsLoop, hf] at hi
      simp at hi
    | none =>
      rw [runSystemsLoop_cons_none wCtx sys rest hf] at hi ⊢
      cases i with
      | zero => simp
      | succ j =>
        simp only [List.getElem?_cons_succ]
        apply ih
        simpa using hi

theorem registerLoop_ok (m : systemManager) (fns : List SystemFunc) :
    ∀ acc : List systemType,
    (fns.map SystemFunc.Name).Nodup →
    (∀ n ∈ fns.map SystemFunc.Name, n ∉ acc.map systemType.Name) →
    (∀ n ∈ fns.map SystemFunc.Name, n ∉ registeredNames m) →
    registerLoop m acc fns = .ok (acc ++ fns.map (fun f => ⟨f.Name, f.Fn⟩)) := by
  induction fns with
  | nil => intro acc _ _ _; simp [registerLoop]
  | cons f rest ih =>
    intro acc h1 h2 h3
    have hf_acc : f.Name ∉ acc.map systemType.Name := h2 f.Name (by simp)
    have hf_reg : f.Name ∉ registeredNames m := h3 f.Name (by simp)
    have hc1 : (acc.any fun s => s.Name = f.Name) = false := by
      rw [Bool.eq_false_iff]
      intro hc
      rw [List.any_eq_true] at hc
      obtain ⟨s, hs, heq⟩ := hc
      rw [decide_eq_true_eq] at heq
      exact hf_acc (List.mem_map.mpr ⟨s, hs, heq⟩)
    have hc2 : ((m.registeredSystems ++ m.registeredInitSystems).any
        fun s => s.Name = f.Name) = false := by
      rw [Bool.eq_false_iff]
      intro hc
      rw [List.any_eq_true] at hc
      obtain ⟨s, hs, heq⟩ := hc
      rw [decide_eq_true_eq] at heq
      exact hf_reg (List.mem_map.mpr ⟨s, hs, heq⟩)
    rw [List.map_cons, List.nodup_cons] at h1
    have hrec := ih (acc ++ [⟨f.Name, f.Fn⟩]) h1.2
      (by
        intro n hn
        rw [List.map_append, List.mem_append]
        rintro (hmem | hmem)
        · exact h2 n (by simp [hn]) hmem
        · rw [List.mem_map] at hmem
          obtain ⟨s, hs, heq⟩ := hmem
          rw [List.mem_singleton] at hs
          subst hs
          have heq' : f.Name = n := heq
          subst heq'
          exact h1.1 hn)
      (fun n hn => h3 n (by simp [hn]))
    rw [registerLoop]
    show (if (acc.any fun s => s.Name = f.Name) = true then _ else _) = _
    rw [hc1]
    show (if ((m.registeredSystems ++ m.registeredInitSystems).any
        fun s => s.Name = f.Name) = true then _ else _) = _
    rw [hc2]
    simp only [if_false, Bool.false_eq_true]
    rw [hrec]
    simp

theorem registerLoop_error (m : systemManager) (fns : List SystemFunc) :
    ∀ acc : List systemType,
    (¬ (fns.map SystemFunc.Name).Nodup ∨
      ∃ n ∈ fns.map SystemFunc.Name,
        n ∈ registeredNames m ∨ n ∈ acc.map systemType.Name) →
    ∃ e, registerLoop m acc fns = .error e := by
  induction fns with
  | nil =>
    intro acc h
    rcases h with h | ⟨n, hn, _⟩
    · exact absurd List.nodup_nil h
    · exact absurd hn (List.not_mem_nil n)
  | cons f rest ih =>
    intro acc h
    rw [registerLoop]
    by_cases hc1 : (acc.any fun s => s.Name = f.Name) = true
    · exact ⟨_, by rw [if_pos hc1]⟩
    · rw [Bool.not_eq_true] at hc1
      by_cases hc2 : ((m.registeredSystems ++ m.registeredInitSystems).any
          fun s => s.Name = f.Name) = true
      · refine ⟨.base ("System \"" ++ f.Name ++ "\" is already registered"), ?_⟩
        rw [hc1]
        simp only [Bool.false_eq_true, if_false]
        rw [if_pos hc2]
      · rw [Bool.not_eq_true] at hc2
        have hf_acc : f.Name ∉ acc.map systemType.Name := by
          rw [List.mem_map]
          rintro ⟨s, hs, heq⟩
          have : (acc.any fun s => s.Name = f.Name) = true := by
            rw [List.any_eq_true]
            exact ⟨s, hs, by rw [decide_eq_true_eq]; exact heq⟩
          rw [hc1] at this
          exact Bool.false_ne_true this
        have hf_reg : f.Name ∉ registeredNames m := by
          rw [registeredNames, List.mem_map]
          rintro ⟨s, hs, heq⟩
          have : ((m.registeredSystems ++ m.registeredInitSystems).any
              fun s => s.Name = f.Name) = true := by
            rw [List.any_eq_true]
            exact ⟨s, hs, by rw [decide_eq_true_eq]; exact heq⟩
          rw [hc2] at this
          exact Bool.false_ne_true this
        have hnext : ¬ (rest.map SystemFunc.Name).Nodup ∨
            ∃ n ∈ rest.map SystemFunc.Name, n ∈ registeredNames m ∨
              n ∈ (acc ++ [(⟨f.Name, f.Fn⟩ : systemType)]).map systemType.Name := by
          rcases h with hnd | ⟨n, hn, hor⟩
          · rw [List.map_cons, List.nodup_cons, not_and_or] at hnd
            rcases hnd with hmem | hnd
            · rw [not_not] at hmem
              exact Or.inr ⟨f.Name, hmem, Or.inr (by simp)⟩
            · exact Or.inl hnd
          · rw [List.map_cons, List.mem_cons] at hn
            rcases hn with rfl | hn
            · rcases hor with hreg | hacc
              · exact absurd hreg hf_reg
              · exact absurd hacc hf_acc
            · refine Or.inr ⟨n, hn, ?_⟩
              rcases hor with hreg | hacc
              · exact Or.inl hreg
              · exact Or.inr (by rw [List.map_append, List.mem_append]; exact Or.inl hacc)
        obtain ⟨e, he⟩ := ih (acc ++ [⟨f.Name, f.Fn⟩]) hnext
        refine ⟨e, ?_⟩
        rw [hc1]
        show (if ((m.registeredSystems ++ m.registeredInitSystems).any
            fun s => s.Name = f.Name) = true then _ else _) = _
        rw [hc2]
        simp only [if_false, Bool.false_eq_true]
        exact he

theorem registerLoop_ok_out (m : systemManager) (fns : List SystemFunc) :
    ∀ acc out : List systemType, registerLoop m acc fns = .ok out →
      out = acc ++ fns.map (fun f => ⟨f.Name, f.Fn⟩) := by
  induction fns with
  | nil =>
    intro acc out h
    rw [registerLoop] at h
    cases h
    simp
  | cons f rest ih =>
    intro acc out h
    rw [registerLoop] at h
    by_cases hc1 : (acc.any fun s => s.Name = f.Name) = true
    · rw [if_pos hc1] at h
      cases h
    · rw [Bool.not_eq_true] at hc1
      rw [hc1] at h
      simp only [Bool.false_eq_true, if_false] at h
      by_cases hc2 : ((m.registeredSystems ++ m.registeredInitSystems).any
          fun s => s.Name = f.Name) = true
      · rw [if_pos hc2] at h
        cases h
      · rw [Bool.not_eq_true] at hc2
        rw [hc2] at h
        simp only [Bool.false_eq_true, if_false] at h
        have := ih _ _ h
        subst this
        simp

theorem registerSystems_success (m : systemManager) (isInit : Bool)
    (fns : List SystemFunc) (h : (registerSystems m isInit fns).2 = none) :
    (registerSystems m isInit fns).1.registeredInitSystems =
      m.registeredInitSystems ++
        (if isInit then fns.map (fun f => ⟨f.Name, f.Fn⟩) else []) ∧
    (registerSystems m isInit fns).1.registeredSystems =
      m.registeredSystems ++
        (if isInit then [] else fns.map (fun f => ⟨f.Name, f.Fn⟩)) := by
  rcases hloop : registerLoop m [] fns with e | toReg
  · rw [registerSystems, hloop] at h
    simp at h
  · have hout := registerLoop_ok_out m fns [] toReg hloop
    rw [List.nil_append] at hout
    subst hout
    rw [registerSystems, hloop]
    cases isInit <;> simp

theorem registerAll_names (calls : List (Bool × List SystemFunc)) :
    ∀ m : systemManager, registrationsSucceed m calls →
    (registerAll m calls).registeredInitSystems.map systemType.Name =
      m.registeredInitSystems.map systemType.Name ++ initNamesOfCalls calls ∧
    (registerAll m calls).registeredSystems.map systemType.Name =
      m.registeredSystems.map systemType.Name ++ regularNamesOfCalls calls := by
  induction calls with
  | nil =>
    intro m _
    rw [registerAll, initNamesOfCalls, regularNamesOfCalls]
    simp
  | cons c rest ih =>
    intro m h
    rw [registrationsSucceed] at h
    obtain ⟨h1, h2⟩ := h
    have hstep := registerSystems_success m c.1 c.2 h1
    have hrec := ih (registerSystems m c.1 c.2).1 h2
    rw [registerAll]
    constructor
    · rw [hrec.1, hstep.1, initNamesOfCalls]
      cases hb : c.1 <;> simp [List.map_map, Function.comp]
    · rw [hrec.2, hstep.2, regularNamesOfCalls]
      cases hb : c.1 <;> simp [List.map_map, Function.comp]

/-! ## Claims -/

/-- C1: for every sequence of `AddTransaction` calls issued strictly before
tick N's buffer swap, the typed view of tick N's frozen batch contains
exactly those entries of each TypeID, in submission order; a transaction
submitted while tick N is executing is in no typed view during tick N and
is in tick N+1's frozen batch. -/
theorem claim_C1_double_buffer_typed_view (txs1 txs2 : List TxEntry) (typeID : Nat) :
    (SwapAndGetProcessing (addTransactions emptyTxQueue txs1)).2 = txs1 ∧
    (SwapAndGetProcessing (addTransactions
      (SwapAndGetProcessing (addTransactions emptyTxQueue txs1)).1 txs2)).2 = txs2 ∧
    TypedView (SwapAndGetProcessing (addTransactions emptyTxQueue txs1)).2 typeID =
      txs1.filter (fun e => e.TypeID == typeID) ∧
    TypedView (SwapAndGetProcessing (addTransactions
      (SwapAndGetProcessing (addTransactions emptyTxQueue txs1)).1 txs2)).2 typeID =
      txs2.filter (fun e => e.TypeID == typeID) := by
  have h1 : (SwapAndGetProcessing (addTransactions emptyTxQueue txs1)).2 = txs1 := by
    rw [SwapAndGetProcessing, addTransactions_active]
    rfl
  have h2 : (SwapAndGetProcessing (addTransactions
      (SwapAndGetProcessing (addTransactions emptyTxQueue txs1)).1 txs2)).2 = txs2 := by
    rw [SwapAndGetProcessing, addTransactions_active]
    rfl
  exact ⟨h1, h2, by rw [h1]; rfl, by rw [h2]; rfl⟩

/-- C2: if a system returns an error during a tick then no later system of
that tick runs, and the error surfaced to the tick's caller wraps the
underlying error with the failing system's name (`runSystems`) and the
tick number (the spec-modelled `Tick` wrapper). -/
theorem claim_C2_system_error_aborts_tick (m : systemManager) (wCtx : EngineContext)
    (pre post : List systemType) (sys : systemType) (e : GoError)
    (hsplit : systemsToRun m wCtx = pre ++ sys :: post)
    (hpre : ∀ s ∈ pre, s.Fn wCtx = none)
    (hfail : sys.Fn wCtx = some e) :
    (Tick m wCtx).2.1.executed = pre.map systemType.Name ++ [sys.Name] ∧
    (Tick m wCtx).2.2 =
      some (.wrap (.wrap e ("System " ++ sys.Name ++ " generated an error"))
        ("tick " ++ toString wCtx.CurrentTick)) := by
  rw [Tick, runSystems, hsplit, runSystemsLoop_failure wCtx pre sys post e hpre hfail]
  exact ⟨rfl, rfl⟩

/-- Witness for C2: in `mgrWithFailure` at tick 5 only `okA` and `failB`
run, and the surfaced error wraps "boom" with the system name and tick 5. -/
theorem claim_C2_witness :
    (Tick mgrWithFailure ⟨5⟩).2.1.executed = ["okA", "failB"] ∧
    (Tick mgrWithFailure ⟨5⟩).2.2 =
      some (.wrap (.wrap (.base "boom") "System failB generated an error") "tick 5") := by
  have h := claim_C2_system_error_aborts_tick mgrWithFailure ⟨5⟩
    [⟨"okA", fun _ => none⟩] [⟨"okC", fun _ => none⟩]
    ⟨"failB", fun _ => some (.base "boom")⟩ (.base "boom")
    rfl (by intro s hs; rw [List.mem_singleton] at hs; rw [hs]) rfl
  simpa using h

/-- C3: at tick 0 the scheduler invokes every init system exactly once, in
registration order, all strictly before any regular system; at every tick
with a nonzero tick number it invokes exactly the regular systems in
registration order and never an init system. -/
theorem claim_C3_init_systems_only_tick_zero (m : systemManager)
    (c0 ct : EngineContext) (h0 : c0.CurrentTick = 0) (ht : ct.CurrentTick ≠ 0)
    (hall0 : ∀ s ∈ systemsToRun m c0, s.Fn c0 = none)
    (hallt : ∀ s ∈ systemsToRun m ct, s.Fn ct = none) :
    (runSystems m c0).2.executed =
      m.registeredInitSystems.map systemType.Name ++
        m.registeredSystems.map systemType.Name ∧
    (runSystems m ct).2.executed = m.registeredSystems.map systemType.Name ∧
    (∀ n ∈ m.registeredInitSystems.map systemType.Name,
      n ∉ m.registeredSystems.map systemType.Name →
      n ∉ (runSystems m ct).2.executed) := by
  have hs0 : systemsToRun m c0 = m.registeredInitSystems ++ m.registeredSystems := by
    rw [systemsToRun, if_pos h0]
  have hst : systemsToRun m ct = m.registeredSystems := by
    rw [systemsToRun, if_neg ht]
  have e0 : (runSystems m c0).2.executed =
      m.registeredInitSystems.map systemType.Name ++
        m.registeredSystems.map systemType.Name := by
    rw [runSystems, hs0, runSystemsLoop_success c0 _ (hs0 ▸ hall0)]
    simp
  have et : (runSystems m ct).2.executed = m.registeredSystems.map systemType.Name := by
    rw [runSystems, hst, runSystemsLoop_success ct _ (hst ▸ hallt)]
  exact ⟨e0, et, fun n _ hn => et ▸ hn⟩

/-- Witness for C3: tick 0 runs `initA` then the regular systems; tick 7
runs only the regular systems. -/
theorem claim_C3_witness :
    (runSystems mgrInitRegular ⟨0⟩).2.executed = ["initA", "regA", "regB"] ∧
    (runSystems mgrInitRegular ⟨7⟩).2.executed = ["regA", "regB"] ∧
    "initA" ∉ (runSystems mgrInitRegular ⟨7⟩).2.executed := by
  have h := claim_C3_init_systems_only_tick_zero mgrInitRegular ⟨0⟩ ⟨7⟩
    rfl (by decide)
    (by intro s hs; fin_cases hs <;> rfl)
    (by intro s hs; fin_cases hs <;> rfl)
  refine ⟨by simpa using h.1, by simpa using h.2.1, ?_⟩
  exact h.2.2 "initA" (by simp [mgrInitRegular]) (by simp [mgrInitRegular])

/-- C4: system registration is all-or-nothing: if a name in the batch
duplicates another name of the same batch or collides with a previously
registered system (init or regular), the call returns an error and the
manager's lists are unchanged; otherwise no error is returned and all
functions of the batch are appended, in the order given, to the list the
`isInit` flag selects. -/
theorem claim_C4_registration_all_or_nothing (m : systemManager) (isInit : Bool)
    (fns : List SystemFunc) :
    ((¬ (fns.map SystemFunc.Name).Nodup ∨
        ∃ n ∈ fns.map SystemFunc.Name, n ∈ registeredNames m) →
      (registerSystems m isInit fns).1 = m ∧
      (registerSystems m isInit fns).2 ≠ none) ∧
    (((fns.map SystemFunc.Name).Nodup ∧
        ∀ n ∈ fns.map SystemFunc.Name, n ∉ registeredNames m) →
      (registerSystems m isInit fns).2 = none ∧
      (registerSystems m isInit fns).1.registeredInitSystems =
        m.registeredInitSystems ++
          (if isInit then fns.map (fun f => ⟨f.Name, f.Fn⟩) else []) ∧
      (registerSystems m isInit fns).1.registeredSystems =
        m.registeredSystems ++
          (if isInit then [] else fns.map (fun f => ⟨f.Name, f.Fn⟩))) := by
  constructor
  · intro h
    have h' : ¬ (fns.map SystemFunc.Name).Nodup ∨
        ∃ n ∈ fns.map SystemFunc.Name, n ∈ registeredNames m ∨
          n ∈ ([] : List systemType).map systemType.Name := by
      rcases h with h | ⟨n, hn, hr⟩
      · exact Or.inl h
      · exact Or.inr ⟨n, hn, Or.inl hr⟩
    obtain ⟨e, he⟩ := registerLoop_error m fns [] h'
    rw [registerSystems, he]
    exact ⟨rfl, by simp⟩
  · rintro ⟨h1, h2⟩
    have hok := registerLoop_ok m fns [] h1 (by simp) h2
    have hnone : (registerSystems m isInit fns).2 = none := by
      rw [registerSystems, hok]
      cases isInit <;> simp
    exact ⟨hnone, registerSystems_success m isInit fns hnone⟩

/-- Witness for C4: registering a name already registered in
`mgrInitRegular` fails and leaves the manager unchanged; registering two
fresh names on a fresh manager succeeds and appends them in order. -/
theorem claim_C4_witness :
    ((registerSystems mgrInitRegular true [⟨"regA", fun _ => none⟩]).1 = mgrInitRegular ∧
      (registerSystems mgrInitRegular true [⟨"regA", fun _ => none⟩]).2 ≠ none) ∧
    (registerSystems newSystemManager false
      [⟨"s1", fun _ => none⟩, ⟨"s2", fun _ => none⟩]).2 = none ∧
    (registerSystems newSystemManager false
        [⟨"s1", fun _ => none⟩, ⟨"s2", fun _ => none⟩]).1.registeredSystems =
      [⟨"s1", fun _ => none⟩, ⟨"s2", fun _ => none⟩] := by
  have hA := (claim_C4_registration_all_or_nothing mgrInitRegular true
    [⟨"regA", fun _ => none⟩]).1
    (Or.inr ⟨"regA", by decide, by decide⟩)
  have hB := (claim_C4_registration_all_or_nothing newSystemManager false
    [⟨"s1", fun _ => none⟩, ⟨"s2", fun _ => none⟩]).2
    ⟨by decide, by decide⟩
  exact ⟨hA, hB.1, by simpa [newSystemManager] using hB.2.2⟩

/-- C10: after any sequence of successful registration calls, however init
and regular calls were interleaved, `GetRegisteredSystems` lists every init
system before every regular system, each group in its own registration
order. -/
theorem claim_C10_registered_systems_order (calls : List (Bool × List SystemFunc))
    (h : registrationsSucceed newSystemManager calls) :
    GetRegisteredSystems (registerAll newSystemManager calls) =
      initNamesOfCalls calls ++ regularNamesOfCalls calls := by
  have hm := registerAll_names calls newSystemManager h
  rw [GetRegisteredSystems, List.map_append, hm.1, hm.2]
  simp [newSystemManager]

/-- Witness for C10: three interleaved calls (regular `regA`, init `initA`,
regular `regB`) yield the init name first, then the regular names in
registration order. -/
theorem claim_C10_witness :
    GetRegisteredSystems (registerAll newSystemManager callsInterleaved) =
      ["initA", "regA", "regB"] := by
  have h := claim_C10_registered_systems_order callsInterleaved
    ⟨rfl, rfl, rfl, trivial⟩
  rw [h]
  rfl

theorem registerTx_name_collision (w1 : ECSWorld) (b : ITransaction)
    (hL : w1.stateLoaded = false)
    (hmem : ∃ t ∈ w1.registeredTransactions, t.Name = b.Name) :
    (RegisterTransactions w1 [b]).1 = w1 ∧
    (RegisterTransactions w1 [b]).2 =
      some (RegistrationError.DuplicateRegistration b.Name) := by
  rw [RegisterTransactions, hL]
  simp only [Bool.false_eq_true, if_false]
  have hc : (w1.registeredTransactions.any fun t => t.Name = b.Name) = true := by
    rw [List.any_eq_true]
    obtain ⟨t, ht, heq⟩ := hmem
    exact ⟨t, ht, by rw [decide_eq_true_eq]; exact heq⟩
  rw [registerTxLoop]
  simp only [List.nil_append, hc, if_true]
  simp

/-- C6: registering two transaction types with the same name on one world
fails with `DuplicateRegistration` regardless of payload shape — within one
registration call (the world is left unchanged) and across two separate
calls (the second call fails) — and an identical type object registered
twice is the same-name special case. -/
theorem claim_C6_duplicate_transaction_names (w : ECSWorld) (a b : ITransaction)
    (hL : w.stateLoaded = false) (hname : a.Name = b.Name) :
    ((RegisterTransactions w [a, b]).1 = w ∧
      ∃ n, (RegisterTransactions w [a, b]).2 =
        some (RegistrationError.DuplicateRegistration n)) ∧
    ((RegisterTransactions w [a]).2 = none →
      (RegisterTransactions (RegisterTransactions w [a]).1 [b]).1 =
        (RegisterTransactions w [a]).1 ∧
      (RegisterTransactions (RegisterTransactions w [a]).1 [b]).2 =
        some (RegistrationError.DuplicateRegistration b.Name)) := by
  constructor
  · rw [RegisterTransactions, hL]
    simp only [Bool.false_eq_true, if_false]
    by_cases hc : (w.registeredTransactions.any fun t => t.Name = a.Name) = true
    · rw [registerTxLoop]
      simp only [List.nil_append, hc, if_true]
      simp
    · rw [Bool.not_eq_true] at hc
      have hc2 : (([a] ++ w.registeredTransactions).any fun t => t.Name = b.Name) = true := by
        rw [List.any_eq_true]
        refine ⟨a, by simp, ?_⟩
        rw [decide_eq_true_eq]
        exact hname
      rw [registerTxLoop]
      simp only [List.nil_append, hc, Bool.false_eq_true, if_false]
      rw [registerTxLoop]
      simp only [List.nil_append, hc2, if_true]
      simp
  · intro h1
    by_cases hc : (w.registeredTransactions.any fun t => t.Name = a.Name) = true
    · exfalso
      rw [RegisterTransactions, hL] at h1
      simp only [Bool.false_eq_true, if_false] at h1
      rw [registerTxLoop] at h1
      simp only [List.nil_append, hc, if_true] at h1
      exact Option.some_ne_none _ h1
    · rw [Bool.not_eq_true] at hc
      have hw1 : (RegisterTransactions w [a]).1 =
          { registeredTransactions := w.registeredTransactions ++ [a],
            stateLoaded := w.stateLoaded } := by
        rw [RegisterTransactions, hL]
        simp only [Bool.false_eq_true, if_false]
        rw [registerTxLoop]
        simp only [List.nil_append, hc, Bool.false_eq_true, if_false]
        rw [registerTxLoop]
      apply registerTx_name_collision
      · rw [hw1]
        exact hL
      · rw [hw1]
        exact ⟨a, by simp, hname⟩

/-- Witness for C6: two descriptors named `name_match` with different
payload shapes are rejected both in one call and across two calls on the
empty, not-yet-loaded world. -/
theorem claim_C6_witness :
    ((RegisterTransactions ⟨[], false⟩ [⟨"name_match", [1, 2, 3]⟩, ⟨"name_match", [7]⟩]).1 =
        (⟨[], false⟩ : ECSWorld) ∧
      ∃ n, (RegisterTransactions ⟨[], false⟩
          [⟨"name_match", [1, 2, 3]⟩, ⟨"name_match", [7]⟩]).2 =
        some (RegistrationError.DuplicateRegistration n)) ∧
    (RegisterTransactions
        (RegisterTransactions ⟨[], false⟩ [⟨"name_match", [1, 2, 3]⟩]).1
        [⟨"name_match", [7]⟩]).2 =
      some (RegistrationError.DuplicateRegistration "name_match") := by
  have h := claim_C6_duplicate_transaction_names ⟨[], false⟩
    ⟨"name_match", [1, 2, 3]⟩ ⟨"name_match", [7]⟩ rfl rfl
  exact ⟨h.1, (h.2 rfl).2⟩

/-- C7 counterexample: running `mgrTwoSystems` at tick 1, the value of
`currentSystem` observed after a system ends and before the next one starts
is the just-finished system's name, not the empty string — the code never
clears the record between two consecutive systems. -/
theorem claim_C7_counterexample :
    ¬ (∀ s ∈ (runSystems mgrTwoSystems ⟨1⟩).2.between, s = "") := by
  intro h
  have hmem : "sysA" ∈ (runSystems mgrTwoSystems ⟨1⟩).2.between := by
    show "sysA" ∈ ["sysA", "sysB"]
    simp
  exact absurd (h "sysA" hmem) (by decide)

/-- C7 amended: throughout every tick the scheduler records the name of the
currently running system while it executes (`during`), and clears the
record at tick end, so after the tick `GetCurrentSystem` returns the empty
string; the record is not cleared between the end of one system and the
start of the next: in that gap it still holds the just-finished system's
name (the `i`-th between-systems observation equals the name of the `i`-th
invoked system). Holds for every tick, whether or not a system fails. -/
theorem claim_C7_current_system_amended (m : systemManager) (wCtx : EngineContext) :
    (∀ p ∈ (runSystems m wCtx).2.during, p.2 = p.1) ∧
    (∀ i : Nat, i < (runSystems m wCtx).2.between.length →
      (runSystems m wCtx).2.between[i]? = (runSystems m wCtx).2.executed[i]?) ∧
    GetCurrentSystem (runSystems m wCtx).1 = "" := by
  refine ⟨runSystemsLoop_during_pairs wCtx _, runSystemsLoop_between_prefix wCtx _, ?_⟩
  show (runSystemsLoop wCtx (systemsToRun m wCtx)).final = ""
  exact runSystemsLoop_final_empty wCtx _

/-- Witness for C7 amended, at `mgrTwoSystems` and tick 1: the first system
sees its own name recorded, the observation after the first system ends
equals that system's name, and `GetCurrentSystem` is empty after the
tick. -/
theorem claim_C7_witness :
    (∀ p ∈ (runSystems mgrTwoSystems ⟨1⟩).2.during, p.2 = p.1) ∧
    (runSystems mgrTwoSystems ⟨1⟩).2.between[0]? =
      (runSystems mgrTwoSystems ⟨1⟩).2.executed[0]? ∧
    GetCurrentSystem (runSystems mgrTwoSystems ⟨1⟩).1 = "" := by
  have h := claim_C7_current_system_amended mgrTwoSystems ⟨1⟩
  exact ⟨h.1, h.2.1 0 (by decide), h.2.2⟩

/-- C8: calling `DecodeEVMBytes` on a transaction type whose external schema
has not been configured via `SetEVMType` fails with `SchemaNotConfigured`
for every byte sequence. -/
theorem claim_C8_decode_before_schema (name : String) (bz : List Nat) :
    DecodeEVMBytes (NewTransactionType name) bz =
      .error EVMDecodeError.SchemaNotConfigured :=
  rfl

/-- C9: after `SetEVMType` configures the schema, encoding a well-typed
payload per the schema and decoding the resulting bytes succeeds and yields
a value equal to the original payload. -/
theorem claim_C9_encode_decode_roundtrip (t : TransactionType) (s : EVMType)
    (p : List FieldValue) (h : wellTyped s p = true) :
    DecodeEVMBytes (SetEVMType t s) (encodePayload p) = .ok p := by
  rw [DecodeEVMBytes]
  show (match decodePayload s (encodePayload p) with
    | none => Except.error EVMDecodeError.DecodeFailure
    | some vs => Except.ok vs) = Except.ok p
  rw [decodePayload_encodePayload s p h]

/-- Witness for C9 at a concrete schema and payload mirroring the `FooTx`
test (two 64-bit words and the byte string "foo"). -/
theorem claim_C9_witness :
    wellTyped [FieldType.uint64, FieldType.uint64, FieldType.str]
      [FieldValue.u64 1, FieldValue.u64 2, FieldValue.str [102, 111, 111]] = true ∧
    DecodeEVMBytes
      (SetEVMType (NewTransactionType "FooTx")
        [FieldType.uint64, FieldType.uint64, FieldType.str])
      (encodePayload [FieldValue.u64 1, FieldValue.u64 2, FieldValue.str [102, 111, 111]]) =
      .ok [FieldValue.u64 1, FieldValue.u64 2, FieldValue.str [102, 111, 111]] :=
  ⟨by decide,
    claim_C9_encode_decode_roundtrip (NewTransactionType "FooTx")
      [FieldType.uint64, FieldType.uint64, FieldType.str]
      [FieldValue.u64 1, FieldValue.u64 2, FieldValue.str [102, 111, 111]]
      (by decide)⟩

end WorldEngine
